import Mathlib

/-!
Verification development for a biochemistry RAG (retrieval-augmented
generation) pipeline.  The development shallowly embeds the pipeline's
document splitter, metadata enricher, prompt assembler, response cleaner,
query orchestrator and ingestion driver, and proves properties about them.

Strings are modelled by Lean `String` (logically a list of `Char`);
Python dictionaries that carry document metadata are modelled by
association lists `List (String × String)` with Python `dict.update`
semantics (existing keys are overwritten in place, new keys are appended
in iteration order).
-/

/-! ## Basic string utilities (Python semantics) -/

/-- Python whitespace characters recognised by `str.strip()` (ASCII range;
the documents and configuration values handled by the pipeline are ASCII). -/
def isPyWS (c : Char) : Bool :=
  c = ' ' || c = '\t' || c = '\n' || c = '\r' || c = '\x0b' || c = '\x0c'

/-- Python `str.strip()` on a list of characters: drop leading and trailing
whitespace. -/
def pyStripL (l : List Char) : List Char :=
  ((l.dropWhile isPyWS).reverse.dropWhile isPyWS).reverse

/-- Python `str.strip()`. -/
def pyStrip (s : String) : String :=
  ⟨pyStripL s.data⟩

/-- Python `str.lower()` (ASCII case folding; responses compared by the
ingestion prompt are ASCII). -/
def strLower (s : String) : String :=
  ⟨s.data.map Char.toLower⟩

/-- Python `sep.join(parts)`. -/
def pyJoin (sep : String) : List String → String
  | [] => ""
  | [x] => x
  | x :: y :: xs => x ++ sep ++ pyJoin sep (y :: xs)

/-- Split a character list at each leftmost, non-overlapping occurrence of the
(non-empty) separator `sep`; `acc` holds the reversed characters of the piece
under construction and `fuel` bounds the recursion (each step consumes at
least one character, so the text's length always suffices). -/
def splitOnFuel (sep : List Char) : Nat → List Char → List Char → List (List Char)
  | 0, s, acc => [acc.reverse ++ s]
  | fuel + 1, s, acc =>
    match s with
    | [] => [acc.reverse]
    | c :: rest =>
      if sep.isPrefixOf s then
        acc.reverse :: splitOnFuel sep fuel (s.drop sep.length) []
      else
        splitOnFuel sep fuel rest (c :: acc)

/-- Python `text.split(sep)` for a non-empty separator (also the behaviour of
`re.split` on the escaped separator, pieces between occurrences kept). -/
def pySplitOn (sep text : String) : List String :=
  (splitOnFuel sep.data text.data.length text.data []).map (fun l => ⟨l⟩)

/-- Character-based `text[n:]` (the documents handled are ASCII, where Python
string indexing and character indexing agree). -/
def strDrop (s : String) (n : Nat) : String :=
  ⟨s.data.drop n⟩

/-- Drop the empty strings of a list, as Python's `filter(None, parts)`
or a `!= ""` comprehension guard does. -/
def filterNE (l : List String) : List String :=
  l.filter (fun s => s ≠ "")

/-- Total length of a list of strings. -/
def sumLens (l : List String) : Nat :=
  l.foldr (fun s n => s.length + n) 0

/-- Concatenation of a list of lists. -/
def catLists (l : List (List String)) : List String :=
  l.foldr (· ++ ·) []

/-- First value bound to key `k` in an association list (Python `d[k]` /
`d.get(k)`). -/
def lookupKV {β : Type} (l : List (String × β)) (k : String) : Option β :=
  match l with
  | [] => none
  | p :: rest => if p.1 = k then some p.2 else lookupKV rest k

/-- Python `dict.update`: keys already present in `md` are overwritten in
place, keys of `kvs` not present in `md` are appended in order. -/
def dictUpdate (md kvs : List (String × String)) : List (String × String) :=
  md.map (fun p => match lookupKV kvs p.1 with
    | some v => (p.1, v)
    | none => p) ++
  kvs.filter (fun q => (lookupKV md q.1).isNone)

/-! ## Data model -/

/-- A chunk of document text plus its metadata, mirroring the
`langchain_core.documents.Document` values flowing through the pipeline. -/
structure Document where
  page_content : String
  metadata : List (String × String)
  deriving DecidableEq, Repr

/-! ## Metadata enricher (`data_ingestion._enrich_documents_with_metadata`) -/

/-- The sentinel fields written when a chunk's source file has no mapping. -/
def naFields : List (String × String) :=
  [("chapter_number", "N/A"), ("chapter_title", "N/A")]

/-- Set the `"N/A"` sentinel chapter fields on a chunk (the `else` branch of
`_enrich_documents_with_metadata`). -/
def setNA (d : Document) : Document :=
  { d with metadata := dictUpdate d.metadata naFields }

/-- One iteration of the loop in `_enrich_documents_with_metadata`:
`file_name = doc.metadata.get('source_file')`; if `file_name` is truthy and a
key of the chapter map, merge that entry into the metadata, otherwise set the
sentinel fields. -/
def enrichOne (chapterMap : List (String × List (String × String))) (d : Document) : Document :=
  match lookupKV d.metadata "source_file" with
  | some fn =>
      if fn ≠ "" then
        match lookupKV chapterMap fn with
        | some entry => { d with metadata := dictUpdate d.metadata entry }
        | none => setNA d
      else setNA d
  | none => setNA d

/-- `_enrich_documents_with_metadata`: enrich every chunk in order,
accumulating the results in a list exactly as the Python loop appends to
`enriched_splits`. -/
def enrichDocuments (document_splits : List Document)
    (chapterMap : List (String × List (String × String))) : List Document :=
  document_splits.foldl (fun acc d => acc ++ [enrichOne chapterMap d]) []

/-- The spec's reading of the enricher, one chunk at a time: a chunk whose
`source_file` is present, non-empty and a key of the map gets that map
entry's fields merged into its metadata; every other chunk gets the
`"N/A"` sentinels.  (Second definition, following the specification's words,
to be compared with `enrichDocuments`.) -/
def enrichSpecOne (chapterMap : List (String × List (String × String))) (d : Document) : Document :=
  match lookupKV d.metadata "source_file" with
  | some fn =>
      match lookupKV chapterMap fn with
      | some entry =>
          if fn = "" then setNA d
          else { d with metadata := dictUpdate d.metadata entry }
      | none => setNA d
  | none => setNA d

/-- `data_ingestion.CHAPTER_METADATA_MAP` (the `section_root` values are kept;
they ride along in the merge exactly as in the source). -/
def chapterMetadataMap : List (String × List (String × String)) :=
  [("Introduction.md",
     [("chapter_title", "Biosynthesis of Amino Acids, Nucleotides, and Related Molecules"),
      ("chapter_number", "22"),
      ("section_root", "22.0 Introduction")]),
   ("Overview of Nitrogen Metabolism.md",
     [("chapter_title", "Biosynthesis of Amino Acids, Nucleotides, and Related Molecules"),
      ("chapter_number", "22"),
      ("section_root", "22.1 Overview of Nitrogen Metabolism")]),
   ("Biosynthesis of Amino Acids.md",
     [("chapter_title", "Biosynthesis of Amino Acids, Nucleotides, and Related Molecules"),
      ("chapter_number", "22"),
      ("section_root", "22.2 Biosynthesis of Amino Acids")]),
   ("Molecules Derived from Amino Acids.md",
     [("chapter_title", "Biosynthesis of Amino Acids, Nucleotides, and Related Molecules"),
      ("chapter_number", "22"),
      ("section_root", "22.3 Molecules Derived from Amino Acids")]),
   ("Biosynthesis and Degradation of Nucleotides.md",
     [("chapter_title", "Biosynthesis of Amino Acids, Nucleotides, and Related Molecules"),
      ("chapter_number", "22"),
      ("section_root", "22.4 Biosynthesis and Degradation of Nucleotides")])]

/-! ## Recursive character splitter

Modelled from the spec: `LehningerDocumentSplitter` delegates its secondary,
size-bounded splitting to `langchain`'s `RecursiveCharacterTextSplitter`,
whose code is not part of this repository.  The model below follows the
algorithm the spec describes in §4.1 (recursive boundary splitting over the
ordered separator preference `"\n\n"`, `"\n"`, `". "`, `" "`, `""`, with
sub-chunks of at most `chunk_size` characters merged from separator-delimited
pieces, retaining up to `chunk_overlap` trailing characters between adjacent
sub-chunks), in the library's default configuration used by the source
(`keep_separator` on, so the separator is attached to the start of the piece
that follows it and merged pieces are joined by `""`, and every produced
chunk is stripped of surrounding whitespace). -/

/-- The separator preference configured in `LehningerDocumentSplitter.__init__`. -/
def sepList : List String := ["\n\n", "\n", ". ", " ", ""]

/-- Does `pat` occur as a substring of `s`?  (The library's `re.search` of the
escaped separator.) -/
def containsSub (pat : List Char) : List Char → Bool
  | [] => pat.isEmpty
  | s@(_ :: rest) => pat.isPrefixOf s || containsSub pat rest

/-- Split `text` at every occurrence of `sep`, keeping each separator attached
to the front of the piece that follows it, and drop empty pieces; the empty
separator splits into single characters. -/
def splitWithSep (sep : String) (text : String) : List String :=
  if sep = "" then text.data.map (fun c => String.mk [c])
  else
    match pySplitOn sep text with
    | [] => []
    | p :: ps => filterNE (p :: ps.map (fun q => sep ++ q))

/-- Choose the first separator of the preference list that is either empty or
occurs in the text, together with the remaining (finer) separators; `last` is
the fallback when none applies. -/
def chooseSepAux (text : String) (last : String) : List String → String × List String
  | [] => (last, [])
  | s :: rest =>
    if s = "" then ("", [])
    else if containsSub s.data text.data then (s, rest)
    else chooseSepAux text last rest

/-- Separator selection at the head of `_split_text`. -/
def chooseSep (text : String) (seps : List String) : String × List String :=
  chooseSepAux text (seps.getLastD "") seps

/-- The overlap-retention loop of `_merge_splits`: pop pieces from the front
of the current window while its total length exceeds `chunk_overlap`, or while
the next piece (of length `nextLen`) would not fit in `chunk_size` and the
window is non-empty.  Returns the retained window and its total length. -/
def popWhile (overlap size nextLen : Nat) : List String → Nat → List String × Nat
  | [], total => ([], total)
  | c :: cs, total =>
    if total > overlap ∨ (total + nextLen > size ∧ total > 0) then
      popWhile overlap size nextLen cs (total - c.length)
    else (c :: cs, total)

/-- The body of `_merge_splits` (separator `""`, whitespace stripping on):
accumulate pieces into a window of at most `chunk_size` characters, emitting
the stripped window contents whenever the next piece would overflow, and
retaining a tail of the window as overlap. -/
def mergeLoop (size overlap : Nat) : List String → List String → Nat → List String
  | [], current, _ =>
    let doc := pyStrip (pyJoin "" current)
    if doc = "" then [] else [doc]
  | d :: rest, current, total =>
    if total + d.length > size then
      if current = [] then
        mergeLoop size overlap rest [d] (total + d.length)
      else
        let doc := pyStrip (pyJoin "" current)
        let popped := popWhile overlap size d.length current total
        (if doc = "" then [] else [doc]) ++
          mergeLoop size overlap rest (popped.1 ++ [d]) (popped.2 + d.length)
    else
      mergeLoop size overlap rest (current ++ [d]) (total + d.length)

/-- `_merge_splits`. -/
def mergeSplits (size overlap : Nat) (splits : List String) : List String :=
  mergeLoop size overlap splits [] 0

/-- Instrumented variant of `mergeLoop` returning the successive windows
(the `current_doc` contents at each emission point, plus the final window)
instead of the stripped, joined, non-empty chunks. -/
def mergeLoopW (size overlap : Nat) : List String → List String → Nat → List (List String)
  | [], current, _ => [current]
  | d :: rest, current, total =>
    if total + d.length > size then
      if current = [] then
        mergeLoopW size overlap rest [d] (total + d.length)
      else
        let popped := popWhile overlap size d.length current total
        current :: mergeLoopW size overlap rest (popped.1 ++ [d]) (popped.2 + d.length)
    else
      mergeLoopW size overlap rest (current ++ [d]) (total + d.length)

/-- The windows `_merge_splits` works through on a list of pieces. -/
def mergeWindows (size overlap : Nat) (splits : List String) : List (List String) :=
  mergeLoopW size overlap splits [] 0

/-- The loop of `_split_text` over the pieces of one separator level: pieces
shorter than `chunk_size` accumulate in `good` and are merged; an oversize
piece first flushes the accumulated good pieces, then is either recursively
split at the finer separators or (when no finer separator remains) emitted
as-is. -/
def splitLoop (size overlap : Nat) (recur : String → List String)
    (newSeps : List String) : List String → List String → List String
  | [], good => if good = [] then [] else mergeSplits size overlap good
  | s :: rest, good =>
    if s.length < size then splitLoop size overlap recur newSeps rest (good ++ [s])
    else
      (if good = [] then [] else mergeSplits size overlap good) ++
      (if newSeps = [] then [s] else recur s) ++
      splitLoop size overlap recur newSeps rest []

/-- `_split_text`, with a fuel argument bounding the recursion depth.  Each
recursive call passes a strictly shorter separator list, so fuel
`seps.length` always suffices (for the separator lists that actually arise;
with fuel `0` no chunks are produced). -/
def splitTextFuel (size overlap : Nat) : Nat → List String → String → List String
  | 0, _, _ => []
  | fuel + 1, seps, text =>
    match chooseSep text seps with
    | (sep, newSeps) =>
      splitLoop size overlap (splitTextFuel size overlap fuel newSeps) newSeps
        (splitWithSep sep text) []

/-- `RecursiveCharacterTextSplitter.split_text` with the splitter's configured
separator list. -/
def splitText (size overlap : Nat) (text : String) : List String :=
  splitTextFuel size overlap sepList.length sepList text

/-! ## Markdown header splitter

Modelled from the spec: the structural split of
`LehningerDocumentSplitter.split_single_document` is performed by
`langchain`'s `MarkdownHeaderTextSplitter` (headers `#` → `"Main Title"`,
`##` → `"Section"`, `strip_headers=False`), whose code is not part of this
repository.  Following the spec's §4.1 step 1: split on level-1/level-2
header lines, each chunk's metadata capturing the active "Main Title" and
"Section" header text seen so far, with header lines retained verbatim in
the chunk content. -/

/-- Metadata of a structural chunk from the active header texts. -/
def headerMeta (mainTitle sect : Option String) : List (String × String) :=
  (match mainTitle with
   | some t => [("Main Title", t)]
   | none => []) ++
  (match sect with
   | some s => [("Section", s)]
   | none => [])

/-- Close the chunk under construction (if any lines were collected) and
append it to the accumulator. -/
def mdFlush (mainTitle sect : Option String) (cur : List String)
    (acc : List Document) : List Document :=
  if cur.isEmpty then acc
  else acc ++ [⟨pyJoin "\n" cur, headerMeta mainTitle sect⟩]

/-- Line-by-line pass of the structural split. -/
def mdGo : List String → Option String → Option String → List String →
    List Document → List Document
  | [], mt, sec, cur, acc => mdFlush mt sec cur acc
  | line :: rest, mt, sec, cur, acc =>
    if "## ".data.isPrefixOf line.data then
      mdGo rest mt (some (pyStrip (strDrop line 3))) [line] (mdFlush mt sec cur acc)
    else if "# ".data.isPrefixOf line.data then
      mdGo rest (some (pyStrip (strDrop line 2))) none [line] (mdFlush mt sec cur acc)
    else
      mdGo rest mt sec (cur ++ [line]) acc

/-- `MarkdownHeaderTextSplitter.split_text` (as modelled from the spec). -/
def mdHeaderSplit (text : String) : List Document :=
  mdGo (pySplitOn "\n" text) none none [] []

/-! ## `LehningerDocumentSplitter.split_single_document` -/

/-- `doc.metadata['source_file'] = filename` when a filename was given. -/
def withSourceFile (filename : Option String) (d : Document) : Document :=
  match filename with
  | some f => { d with metadata := dictUpdate d.metadata [("source_file", f)] }
  | none => d

/-- `split_single_document`: return `[]` on empty or whitespace-only input;
otherwise split structurally on headers, tag each structural chunk with the
source file, and apply secondary splitting to every structural chunk whose
content exceeds `max_chunk_size`. -/
def split_single_document (size overlap : Nat) (markdown_text : String)
    (filename : Option String) : List Document :=
  if pyStrip markdown_text = "" then []
  else
    (mdHeaderSplit markdown_text).foldl (fun acc doc =>
      let doc := withSourceFile filename doc
      if doc.page_content.length > size then
        acc ++ (splitText size overlap doc.page_content).map
          (fun c => ⟨c, doc.metadata⟩)
      else acc ++ [doc]) []

/-! ## Fallible view of `split_single_document` (exception path)

To reason about the `try`/`except` of `split_single_document`, the two
underlying library splitters are abstracted as fallible functions; an
`Except.error` models the library raising.  The source catches any such
exception and returns the empty list. -/

/-- The body of the `try` block of `split_single_document`. -/
def splitBodyF (size : Nat)
    (headerSplit : String → Except String (List Document))
    (textSplit : Document → Except String (List Document))
    (markdown_text : String) (filename : Option String) :
    Except String (List Document) := do
  let mdSplits ← headerSplit markdown_text
  mdSplits.foldlM (fun acc doc => do
    let doc := withSourceFile filename doc
    if doc.page_content.length > size then
      let subs ← textSplit doc
      pure (acc ++ subs)
    else
      pure (acc ++ [doc])) ([] : List Document)

/-- `split_single_document` with fallible underlying splitters: empty or
whitespace-only input short-circuits to `[]`, and any exception raised by the
splitters is caught and converted to `[]`. -/
def splitSingleDocumentF (size : Nat)
    (headerSplit : String → Except String (List Document))
    (textSplit : Document → Except String (List Document))
    (markdown_text : String) (filename : Option String) : List Document :=
  if pyStrip markdown_text = "" then []
  else
    match splitBodyF size headerSplit textSplit markdown_text filename with
    | .ok finalSplits => finalSplits
    | .error _ => []

/-- `process_directory` over an abstract directory listing: each file is a
name paired with the outcome of reading it (`Except.error` models a decode
or IO failure, which is logged and skipped); empty or whitespace-only files
are skipped; the chunks of the remaining files are aggregated in order. -/
def process_directory_files (split : String → Option String → List Document)
    (files : List (String × Except String String)) : List Document :=
  files.foldl (fun acc file =>
    match file.2 with
    | .error _ => acc
    | .ok content =>
        if pyStrip content = "" then acc
        else acc ++ split content (some file.1)) []

/-! ## `LehningerDocumentSplitter.get_chunks_summary` -/

/-- `d[k] = d.get(k, 0) + 1` on an ordered counter. -/
def bumpCount (l : List (String × Nat)) (k : String) : List (String × Nat) :=
  match l with
  | [] => [(k, 1)]
  | (k', n) :: rest =>
    if k' = k then (k', n + 1) :: rest else (k', n) :: bumpCount rest k

/-- Minimum of a list of sizes (`min(sizes)`; `0` for the empty list, which
the source never reaches). -/
def listMin : List Nat → Nat
  | [] => 0
  | x :: xs => xs.foldl Nat.min x

/-- Maximum of a list of sizes (`max(sizes)`). -/
def listMax : List Nat → Nat
  | [] => 0
  | x :: xs => xs.foldl Nat.max x

/-- The `size_stats` record of a chunks summary. -/
structure SizeStats where
  min : Nat
  max : Nat
  avg : Nat
  total : Nat
  deriving DecidableEq, Repr

/-- The summary returned by `get_chunks_summary`. -/
structure ChunksSummary where
  total_chunks : Nat
  files : List (String × Nat)
  sections : List (String × Nat)
  size_stats : SizeStats
  deriving DecidableEq, Repr

/-- `get_chunks_summary`: on an empty list, the zeroed summary; otherwise the
per-file and per-section counts in first-occurrence order and the size
statistics, with integer-floor average. -/
def get_chunks_summary (splits : List Document) : ChunksSummary :=
  if splits = [] then
    ⟨0, [], [], ⟨0, 0, 0, 0⟩⟩
  else
    let sizes := splits.map (fun d => d.page_content.length)
    let files := splits.foldl
      (fun acc d => bumpCount acc ((lookupKV d.metadata "source_file").getD "Unknown")) []
    let sections := splits.foldl
      (fun acc d => bumpCount acc ((lookupKV d.metadata "Section").getD "No Section")) []
    ⟨splits.length, files, sections,
      ⟨listMin sizes, listMax sizes, sizes.foldr (· + ·) 0 / splits.length,
       sizes.foldr (· + ·) 0⟩⟩

/-! ## Prompt assembler (`BiochemistryRAGPipeline._build_system_message` and
`_setup_prompt_template`) -/

/-- The optional fields of the prompt template configuration
(`lehninger_rag_prompt_cfg`); a `none` models a missing key and `some ""` /
`some []` an empty (falsy) value. -/
structure PromptConfig where
  role : Option String
  instruction : Option String
  goal : Option String
  output_constraints : Option (List String)
  style_or_tone : Option (List String)
  deriving Repr

/-- The list entries contributed by the `role` or `instruction` field:
nothing when absent or empty, otherwise the stripped text. -/
def partsPlain : Option String → List String
  | some r => if r = "" then [] else [pyStrip r]
  | none => []

/-- The entries contributed by the `goal` field. -/
def partsGoal : Option String → List String
  | some g => if g = "" then [] else ["\nGoal: " ++ pyStrip g]
  | none => []

/-- The entries contributed by a list-valued field (`output_constraints` or
`style_or_tone`): a header followed by one bulleted entry per element. -/
def partsListSection (header : String) : Option (List String) → List String
  | some l => if l = [] then [] else header :: l.map (fun c => "  - " ++ pyStrip c)
  | none => []

/-- The entries contributed by the resolved reasoning strategy. -/
def partsCot : Option String → List String
  | some t => if t = "" then [] else ["\nReasoning Strategy:\n" ++ pyStrip t]
  | none => []

/-- `_build_system_message`: collect the parts in the fixed field order and
join the non-empty ones with blank lines (`"\n\n".join(filter(None, parts))`). -/
def build_system_message (cfg : PromptConfig) (cot_strategy_text : Option String) : String :=
  pyJoin "\n\n" (filterNE
    (partsPlain cfg.role ++ partsPlain cfg.instruction ++ partsGoal cfg.goal ++
     partsListSection "\nOutput Constraints:" cfg.output_constraints ++
     partsListSection "\nStyle/Tone:" cfg.style_or_tone ++
     partsCot cot_strategy_text))

/-- `_setup_prompt_template`'s final template string (with the literal
placeholders `{context}` and `{question}` left for late binding). -/
def combined_template (cfg : PromptConfig) (cot_strategy_text : Option String) : String :=
  build_system_message cfg cot_strategy_text ++ "\n\nContext:\n{context}\n\nQuestion: {question}"

/-- The specification's rendering of one plain optional field: its stripped
text, or nothing. (Definition following the spec's words, to be compared
with the assembled template.) -/
def blockPlain : Option String → String
  | some r => pyStrip r
  | none => ""

/-- The specification's rendering of the `goal` field, prefixed `"Goal: "`. -/
def blockGoal : Option String → String
  | some g => if g = "" then "" else "\nGoal: " ++ pyStrip g
  | none => ""

/-- The specification's rendering of a list field: a bulleted sub-list under
a header, or nothing when the list is absent or empty. -/
def blockListSection (header : String) : Option (List String) → String
  | some l =>
      if l = [] then ""
      else pyJoin "\n\n" (header :: l.map (fun c => "  - " ++ pyStrip c))
  | none => ""

/-- The specification's rendering of the resolved reasoning strategy under a
`"Reasoning Strategy:"` header. -/
def blockCot : Option String → String
  | some t => if t = "" then "" else "\nReasoning Strategy:\n" ++ pyStrip t
  | none => ""

/-- The system section as the specification describes it: the six blocks in
the fixed order, empty blocks contributing nothing, joined by blank-line
separation. -/
def specSystemSection (cfg : PromptConfig) (cot_strategy_text : Option String) : String :=
  pyJoin "\n\n" (filterNE
    [blockPlain cfg.role, blockPlain cfg.instruction, blockGoal cfg.goal,
     blockListSection "\nOutput Constraints:" cfg.output_constraints,
     blockListSection "\nStyle/Tone:" cfg.style_or_tone,
     blockCot cot_strategy_text])

/-- The final prompt template as the specification states it:
`"{system_section}\n\nContext:\n{context}\n\nQuestion: {question}"`. -/
def specPromptTemplate (cfg : PromptConfig) (cot_strategy_text : Option String) : String :=
  specSystemSection cfg cot_strategy_text ++ "\n\nContext:\n{context}\n\nQuestion: {question}"

/-! ## Response cleanup (`BiochemistryRAGPipeline._apply_cleaning_patterns`)

The source applies a fixed, ordered list of `re.sub(pattern, '', text,
flags=re.DOTALL | re.IGNORECASE)` calls followed by `str.strip()`.  Each
pattern falls into one of three shapes, embedded below with Python `re`
semantics specialised to those shapes:
- `LIT\s*.*?(?=LOOK|$)` — at each occurrence of `LIT` (case-insensitive),
  consume the maximal whitespace run, then lazily extend until the lookahead
  `LOOK` matches or the position is at the end of the string (or just before
  a final newline, where `$` also matches);
- `LIT\s*.*$` — with `re.DOTALL`, delete from the first occurrence of `LIT`
  to the end of the string;
- `^\s*LIT\s*(LIT\s*)…` — anchored at the start of the string only (no
  `re.MULTILINE`). -/

/-- Case-insensitive prefix test on character lists. -/
def ciPrefix : List Char → List Char → Bool
  | [], _ => true
  | _ :: _, [] => false
  | a :: as, b :: bs => (a.toLower = b.toLower) && ciPrefix as bs

/-- Index of the first case-insensitive occurrence of `pat`. -/
def findCI (pat : List Char) : List Char → Option Nat
  | [] => if ciPrefix pat [] then some 0 else none
  | s@(_ :: rest) => if ciPrefix pat s then some 0 else (findCI pat rest).map (· + 1)

/-- Length of the leading whitespace run (the greedy `\s*`). -/
def countWS (l : List Char) : Nat :=
  (l.takeWhile isPyWS).length

/-- Offset of the first position at which the lookahead `(?=k|$)` succeeds:
`k` matches case-insensitively, or the position is at the end of the string
or just before a final newline. -/
def minLook (k : List Char) : List Char → Nat
  | [] => 0
  | s@(_ :: rest) => if ciPrefix k s || s = ['\n'] then 0 else 1 + minLook k rest

/-- One substitution step for the shape `lit\s*.*?(?=k|$)`: the text before
the match and the text after it, or `none` when `lit` does not occur. -/
def subLazyOnce (lit k : List Char) (s : List Char) : Option (List Char × List Char) :=
  match findCI lit s with
  | none => none
  | some i =>
    let before := s.take i
    let rest1 := s.drop (i + lit.length)
    let rest2 := rest1.drop (countWS rest1)
    some (before, rest2.drop (minLook k rest2))

/-- Global substitution for the shape `lit\s*.*?(?=k|$)` (fuel bounds the
number of matches; every match consumes at least one character, so
`s.length + 1` always suffices). -/
def subLazy (lit k : List Char) : Nat → List Char → List Char
  | 0, s => s
  | fuel + 1, s =>
    match subLazyOnce lit k s with
    | none => s
    | some (before, after) => before ++ subLazy lit k fuel after

/-- Substitution for the shape `lit\s*.*$` under `re.DOTALL`: delete from the
first case-insensitive occurrence of `lit` to the end. -/
def subToEnd (lit : List Char) (s : List Char) : List Char :=
  match findCI lit s with
  | none => s
  | some i => s.take i

/-- Match the anchored sequence `lit₁\s*lit₂\s*…` at the current position,
returning the remainder after the match. -/
def matchSeqCI : List (List Char) → List Char → Option (List Char)
  | [], s => some s
  | lit :: lits, s =>
    if ciPrefix lit s then matchSeqCI lits ((s.drop lit.length).dropWhile isPyWS)
    else none

/-- Substitution for the anchored shape `^\s*lit₁\s*(lit₂\s*…)`: remove the
match at the start of the string if it is there. -/
def subAnchored (lits : List (List Char)) (s : List Char) : List Char :=
  match matchSeqCI lits (s.dropWhile isPyWS) with
  | some rest => rest
  | none => s

/-- `_apply_cleaning_patterns`: the seven patterns in source order, then
`str.strip()`. -/
def apply_cleaning_patterns (text : String) : String :=
  let s0 := text.data
  let s1 := subLazy "Right Answer:".data "Answer:".data (s0.length + 1) s0
  let s2 := subLazy "Explanation of the Solution:".data "Related Questions:".data
    (s1.length + 1) s1
  let s3 := subToEnd "Related Questions:".data s2
  let s4 := subToEnd "Sources:".data s3
  let s5 := subAnchored ["Answer:".data, "Answer:".data] s4
  let s6 := subAnchored ["Answer:".data] s5
  let s7 := subAnchored ["The answer is:".data] s6
  ⟨pyStripL s7⟩

/-! ## Query orchestrator (`BiochemistryRAGPipeline.query`) -/

/-- The result dictionary of a query (`{query, result, source_documents}`). -/
structure QueryResult where
  query : String
  result : String
  source_documents : List Document
  deriving DecidableEq, Repr

/-- A similarity retriever: a question in, retrieved documents out (an
`Except.error` models the underlying search raising). -/
def Retriever : Type := String → Except String (List Document)

/-- A built RAG chain: invoked with the question, it returns the response
dictionary (an `Except.error` models a prompt-construction or generation
failure). -/
def RAGChain : Type := String → Except String QueryResult

/-- `_clean_response`: post-process the `result` field of the response (the
source writes the cleaned text back only when it changed, which yields the
same dictionary either way). -/
def clean_response (response : QueryResult) : QueryResult :=
  { response with result := apply_cleaning_patterns response.result }

/-- The body of the `try` block of `query`: build the filtered retriever,
build the RAG chain, retrieve the documents (the source logs them), invoke
the chain and clean the response. -/
def queryPipelineSteps (question : String)
    (mkRetriever : Except String Retriever)
    (mkChain : Retriever → Except String RAGChain) : Except String QueryResult := do
  let current_retriever ← mkRetriever
  let rag_chain ← mkChain current_retriever
  let _retrieved_docs ← current_retriever question
  let response ← rag_chain question
  pure (clean_response response)

/-- `query`: any exception in the body is caught and converted into an
in-band error result carrying the original question and no sources. -/
def pipeline_query (question : String)
    (mkRetriever : Except String Retriever)
    (mkChain : Retriever → Except String RAGChain) : QueryResult :=
  match queryPipelineSteps question mkRetriever mkChain with
  | .ok response => response
  | .error e => ⟨question, "An error occurred: " ++ e, []⟩

/-! ## Ingestion driver (`data_ingestion.ingest_data_into_vectordb`)

The external effects of one ingestion run — whether the data directory
exists, what chunks directory processing produced, the embedding-model load,
the state of the persisted vector store, the interactive confirmation
prompt, the vector-store construction and the document insertion — are
abstracted into an environment record; `Except.error` models the
corresponding step raising. -/

/-- The configuration values the driver reads. -/
structure IngestConfig where
  max_chunk_size : Nat
  chunk_overlap : Nat
  data_directory : String
  persist_directory : String
  collection_name : String
  embedding_model_name : String
  deriving DecidableEq, Repr

/-- The outcomes of the external steps of one ingestion run. -/
structure IngestEnv where
  dataDirExists : Bool
  processedChunks : List Document
  embeddingResult : Except String (Nat × String)
  persistDirExists : Bool
  persistDirNonempty : Bool
  userResponse : Option String
  vectorStoreResult : Except String Unit
  addDocumentsResult : Except String Nat
  deriving Repr

/-- The `documents` section of the success summary. -/
structure DocumentsSummary where
  total_chunks : Nat
  files_processed : Nat
  sections_found : Nat
  total_characters : Nat
  deriving DecidableEq, Repr

/-- The `embeddings` section of the success summary. -/
structure EmbeddingsSummary where
  model : String
  dimension : Nat
  device : String
  count : Nat
  deriving DecidableEq, Repr

/-- The `vector_store` section of the success summary. -/
structure VectorStoreSummary where
  path : String
  collection : String
  document_count : Nat
  deriving DecidableEq, Repr

/-- The `configuration` section of the success summary. -/
structure ConfigurationSummary where
  max_chunk_size : Nat
  chunk_overlap : Nat
  data_directory : String
  deriving DecidableEq, Repr

/-- The summary returned on a successful ingestion. -/
structure IngestSummary where
  status : String
  documents : DocumentsSummary
  embeddings : EmbeddingsSummary
  vector_store : VectorStoreSummary
  configuration : ConfigurationSummary
  deriving DecidableEq, Repr

/-- Did the user type `y` at the prompt (`input(...).lower().strip() == 'y'`;
`none` models `EOFError`/`KeyboardInterrupt`)? -/
def userConfirmsClear (env : IngestEnv) : Bool :=
  match env.userResponse with
  | some resp => pyStrip (strLower resp) = "y"
  | none => false

/-- `_prompt_user_for_clear_confirmation`: only when the persist directory
exists and contains data is the user prompted; otherwise `False`. -/
def prompt_user_for_clear_confirmation (env : IngestEnv) : Bool :=
  if env.persistDirExists && env.persistDirNonempty then userConfirmsClear env
  else false

/-- `ingest_data_into_vectordb`: the full driver, returning `none` whenever
the `try` body raises (missing directory, no processed documents, embedding,
vector-store or insertion failure) or the run is aborted at the
database-clearing step. -/
def ingest_data_into_vectordb (cfg : IngestConfig) (env : IngestEnv)
    (clear_existing : Bool) : Option IngestSummary :=
  if !env.dataDirExists then none
  else if env.processedChunks = [] then none
  else
    let document_splits := enrichDocuments env.processedChunks chapterMetadataMap
    let summary := get_chunks_summary document_splits
    match env.embeddingResult with
    | .error _ => none
    | .ok (embedding_dim, device) =>
      let perform_clear :=
        if clear_existing then true else prompt_user_for_clear_confirmation env
      if !clear_existing && !perform_clear && env.persistDirExists then none
      else
        match env.vectorStoreResult with
        | .error _ => none
        | .ok _ =>
          match env.addDocumentsResult with
          | .error _ => none
          | .ok final_count =>
            some ⟨"success",
              ⟨document_splits.length, summary.files.length, summary.sections.length,
               summary.size_stats.total⟩,
              ⟨cfg.embedding_model_name, embedding_dim, device, final_count⟩,
              ⟨cfg.persist_directory, cfg.collection_name, final_count⟩,
              ⟨cfg.max_chunk_size, cfg.chunk_overlap, cfg.data_directory⟩⟩

/-- Two adjacent merge windows share a carried-over block of whole pieces: a
suffix of the first window is a prefix of the second, of total length at most
`overlap`. -/
def boundedOverlapRel (overlap : Nat) (w w' : List String) : Prop :=
  ∃ carry : List String,
    (∃ pre, pre ++ carry = w) ∧ (∃ post, carry ++ post = w') ∧ sumLens carry ≤ overlap

/-! # Theorems -/

/-! ## String basics -/

theorem length_pos_of_ne_empty (s : String) (h : s ≠ "") : 0 < s.length := by
  cases s with
  | mk data =>
    cases data with
    | nil => exact absurd rfl h
    | cons c cs => simp [String.length]

@[simp] theorem sumLens_nil : sumLens [] = 0 := rfl

@[simp] theorem sumLens_cons (s : String) (l : List String) :
    sumLens (s :: l) = s.length + sumLens l := rfl

theorem sumLens_append (l₁ l₂ : List String) :
    sumLens (l₁ ++ l₂) = sumLens l₁ + sumLens l₂ := by
  induction l₁ with
  | nil => simp
  | cons x xs ih => simp [ih]; omega

theorem dropWhile_length_le {α : Type} (p : α → Bool) (l : List α) :
    (l.dropWhile p).length ≤ l.length := by
  induction l with
  | nil => simp [List.dropWhile]
  | cons x xs ih =>
    rw [List.dropWhile]
    cases p x
    · simp
    · simp
      omega

theorem pyStripL_length_le (l : List Char) : (pyStripL l).length ≤ l.length := by
  unfold pyStripL
  calc (((l.dropWhile isPyWS).reverse.dropWhile isPyWS).reverse).length
      = ((l.dropWhile isPyWS).reverse.dropWhile isPyWS).length := by
        rw [List.length_reverse]
    _ ≤ (l.dropWhile isPyWS).reverse.length := dropWhile_length_le _ _
    _ = (l.dropWhile isPyWS).length := by rw [List.length_reverse]
    _ ≤ l.length := dropWhile_length_le _ _

theorem pyStrip_length_le (s : String) : (pyStrip s).length ≤ s.length :=
  pyStripL_length_le s.data

theorem pyJoin_nil (sep : String) : pyJoin sep [] = "" := rfl

theorem pyJoin_single (sep x : String) : pyJoin sep [x] = x := rfl

theorem pyJoin_cons_ne (sep x : String) (l : List String) (h : l ≠ []) :
    pyJoin sep (x :: l) = x ++ sep ++ pyJoin sep l := by
  cases l with
  | nil => exact absurd rfl h
  | cons y ys => rfl

theorem pyJoin_empty_sep_length (l : List String) :
    (pyJoin "" l).length = sumLens l := by
  induction l with
  | nil => rfl
  | cons x xs ih =>
    cases xs with
    | nil => simp [pyJoin, sumLens]
    | cons y ys =>
      rw [pyJoin_cons_ne _ _ _ (by simp), sumLens_cons, ← ih]
      simp [String.length_append]

theorem pyJoin_ne_empty (sep x : String) (xs : List String) (h : x ≠ "") :
    pyJoin sep (x :: xs) ≠ "" := by
  intro hc
  have hx := length_pos_of_ne_empty x h
  cases xs with
  | nil => exact h hc
  | cons y ys =>
    rw [pyJoin_cons_ne _ _ _ (by simp)] at hc
    have : (x ++ sep ++ pyJoin sep (y :: ys)).length = 0 := by rw [hc]; rfl
    simp [String.length_append] at this
    omega

theorem pyJoin_append (sep : String) (l₁ l₂ : List String) (h₁ : l₁ ≠ [])
    (h₂ : l₂ ≠ []) :
    pyJoin sep (l₁ ++ l₂) = pyJoin sep l₁ ++ sep ++ pyJoin sep l₂ := by
  induction l₁ with
  | nil => exact absurd rfl h₁
  | cons x xs ih =>
    cases xs with
    | nil =>
      cases l₂ with
      | nil => exact absurd rfl h₂
      | cons y ys => rw [List.singleton_append, pyJoin_cons_ne _ _ _ (by simp)]; rfl
    | cons z zs =>
      rw [List.cons_append, pyJoin_cons_ne _ _ _ (by simp),
        pyJoin_cons_ne _ _ _ (by simp), ih (by simp)]
      simp [String.append_assoc]

/-! ## The merge loop of the recursive character splitter -/

theorem popWhile_suffix (o z L : Nat) (cur : List String) (total : Nat) :
    ∃ pre, pre ++ (popWhile o z L cur total).1 = cur := by
  induction cur generalizing total with
  | nil => exact ⟨[], rfl⟩
  | cons c cs ih =>
    rw [popWhile]
    by_cases h : total > o ∨ (total + L > z ∧ total > 0)
    · simp only [if_pos h]
      obtain ⟨pre, hpre⟩ := ih (total - c.length)
      exact ⟨c :: pre, by simp [hpre]⟩
    · simp only [if_neg h]
      exact ⟨[], rfl⟩

theorem popWhile_spec (o z L : Nat) (cur : List String) (total : Nat)
    (h : total = sumLens cur) :
    (popWhile o z L cur total).2 = sumLens (popWhile o z L cur total).1 ∧
    (popWhile o z L cur total).2 ≤ o ∧
    ((popWhile o z L cur total).2 + L ≤ z ∨ (popWhile o z L cur total).2 = 0) := by
  induction cur generalizing total with
  | nil =>
    simp [popWhile] at h ⊢
    omega
  | cons c cs ih =>
    rw [popWhile]
    by_cases hc : total > o ∨ (total + L > z ∧ total > 0)
    · simp only [if_pos hc]
      exact ih (total - c.length) (by rw [h, sumLens_cons]; omega)
    · simp only [if_neg hc]
      refine ⟨h, ?_, ?_⟩ <;> omega

theorem mergeLoop_bound (z o : Nat) (splits : List String)
    (hs : ∀ d ∈ splits, d.length < z) :
    ∀ (cur : List String) (total : Nat), total = sumLens cur → total ≤ z →
    ∀ c ∈ mergeLoop z o splits cur total, c.length ≤ z := by
  induction splits with
  | nil =>
    intro cur total hsum hle c hc
    rw [mergeLoop] at hc
    by_cases hdoc : pyStrip (pyJoin "" cur) = ""
    · simp [hdoc] at hc
    · simp [hdoc] at hc
      subst hc
      calc (pyStrip (pyJoin "" cur)).length
          ≤ (pyJoin "" cur).length := pyStrip_length_le _
        _ = sumLens cur := pyJoin_empty_sep_length _
        _ ≤ z := by omega
  | cons d rest ih =>
    intro cur total hsum hle c hc
    have hd : d.length < z := hs d (by simp)
    have hrest : ∀ x ∈ rest, x.length < z := fun x hx => hs x (by simp [hx])
    rw [mergeLoop] at hc
    by_cases hov : total + d.length > z
    · simp only [if_pos hov] at hc
      by_cases hcur : cur = []
      · simp only [if_pos hcur] at hc
        subst hcur
        simp at hsum
        exact ih hrest [d] (total + d.length) (by simp [hsum]) (by omega) c hc
      · simp only [if_neg hcur] at hc
        obtain ⟨hps, hpo, hpz⟩ := popWhile_spec o z d.length cur total hsum
        set popped := popWhile o z d.length cur total with hpop
        by_cases hdoc : pyStrip (pyJoin "" cur) = ""
        · simp [hdoc] at hc
          refine ih hrest (popped.1 ++ [d]) (popped.2 + d.length) ?_ ?_ c hc
          · rw [sumLens_append, ← hps]; simp
          · omega
        · simp [hdoc] at hc
          rcases hc with hc | hc
          · subst hc
            calc (pyStrip (pyJoin "" cur)).length
                ≤ (pyJoin "" cur).length := pyStrip_length_le _
              _ = sumLens cur := pyJoin_empty_sep_length _
              _ ≤ z := by omega
          · refine ih hrest (popped.1 ++ [d]) (popped.2 + d.length) ?_ ?_ c hc
            · rw [sumLens_append, ← hps]; simp
            · omega
    · simp only [if_neg hov] at hc
      refine ih hrest (cur ++ [d]) (total + d.length) ?_ ?_ c hc
      · rw [sumLens_append, hsum]; simp
      · omega

theorem mergeSplits_bound (z o : Nat) (splits : List String)
    (hs : ∀ d ∈ splits, d.length < z) :
    ∀ c ∈ mergeSplits z o splits, c.length ≤ z :=
  mergeLoop_bound z o splits hs [] 0 rfl (Nat.zero_le z)

/-! ## The size bound of the recursive character splitter -/

theorem splitWithSep_empty_sep (text : String) :
    ∀ s ∈ splitWithSep "" text, s.length = 1 := by
  intro s hs
  rw [splitWithSep, if_pos rfl] at hs
  obtain ⟨c, _, hc⟩ := List.mem_map.mp hs
  subst hc
  rfl

theorem chooseSepAux_spec (text last : String) (l : List String) (h : "" ∈ l) :
    chooseSepAux text last l = ("", []) ∨ "" ∈ (chooseSepAux text last l).2 := by
  induction l with
  | nil => cases h
  | cons s rest ih =>
    rw [chooseSepAux]
    by_cases hs : s = ""
    · simp [hs]
    · have hrest : "" ∈ rest := by
        cases h with
        | head => exact absurd rfl hs
        | tail _ h => exact h
      by_cases hc : containsSub s.data text.data
      · simp only [if_neg hs, if_pos hc]
        exact Or.inr hrest
      · simp only [if_neg hs, if_neg hc]
        exact ih hrest

theorem chooseSep_spec (text : String) (seps : List String) (h : "" ∈ seps) :
    chooseSep text seps = ("", []) ∨ "" ∈ (chooseSep text seps).2 :=
  chooseSepAux_spec text (seps.getLastD "") seps h

theorem splitLoop_bound (z o : Nat) (recur : String → List String)
    (newSeps : List String)
    (hrec : newSeps ≠ [] → ∀ s, ∀ c ∈ recur s, c.length ≤ z) :
    ∀ (splits good : List String),
    (newSeps = [] → ∀ s ∈ splits, s.length ≤ z) →
    (∀ s ∈ good, s.length < z) →
    ∀ c ∈ splitLoop z o recur newSeps splits good, c.length ≤ z := by
  intro splits
  induction splits with
  | nil =>
    intro good _ hgood c hc
    rw [splitLoop] at hc
    by_cases hg : good = []
    · simp [hg] at hc
    · rw [if_neg hg] at hc
      exact mergeSplits_bound z o good hgood c hc
  | cons s rest ih =>
    intro good hsplits hgood c hc
    rw [splitLoop] at hc
    by_cases hlen : s.length < z
    · rw [if_pos hlen] at hc
      refine ih (good ++ [s]) (fun he x hx => hsplits he x (by simp [hx])) ?_ c hc
      intro x hx
      rcases List.mem_append.mp hx with hx | hx
      · exact hgood x hx
      · simp at hx; subst hx; exact hlen
    · rw [if_neg hlen] at hc
      rcases List.mem_append.mp hc with hc | hc
      · rcases List.mem_append.mp hc with hc | hc
        · by_cases hg : good = []
          · simp [hg] at hc
          · rw [if_neg hg] at hc
            exact mergeSplits_bound z o good hgood c hc
        · by_cases hns : newSeps = []
          · rw [if_pos hns] at hc
            simp at hc
            subst hc
            exact hsplits hns c (by simp)
          · rw [if_neg hns] at hc
            exact hrec hns s c hc
      · exact ih [] (fun he x hx => hsplits he x (by simp [hx])) (by simp) c hc

theorem splitTextFuel_bound (z o : Nat) (hz : 1 ≤ z) :
    ∀ (fuel : Nat) (seps : List String) (text : String), "" ∈ seps →
    ∀ c ∈ splitTextFuel z o fuel seps text, c.length ≤ z := by
  intro fuel
  induction fuel with
  | zero => intro seps text _ c hc; cases hc
  | succ fuel ih =>
    intro seps text hsep c hc
    rw [splitTextFuel] at hc
    rcases hcs : chooseSep text seps with ⟨sep, newSeps⟩
    rw [hcs] at hc
    simp only at hc
    rcases chooseSep_spec text seps hsep with hspec | hspec
    · rw [hcs] at hspec
      injection hspec with h1 h2
      subst h1; subst h2
      refine splitLoop_bound z o _ [] (fun hne => absurd rfl hne)
        _ [] ?_ (by simp) c hc
      intro _ s hsm
      rw [splitWithSep_empty_sep text s hsm]
      exact hz
    · rw [hcs] at hspec
      have hne : newSeps ≠ [] := by
        intro hn; rw [hn] at hspec; cases hspec
      refine splitLoop_bound z o _ newSeps
        (fun _ s => ih newSeps s hspec) _ []
        (fun he => absurd he hne) (by simp) c hc

theorem splitText_bound (z o : Nat) (hz : 1 ≤ z) (text : String) :
    ∀ c ∈ splitText z o text, c.length ≤ z :=
  splitTextFuel_bound z o hz sepList.length sepList text (by simp [sepList])

theorem split_fold_bound (size overlap : Nat) (filename : Option String)
    (hz : 1 ≤ size) :
    ∀ (docs acc : List Document),
    (∀ d ∈ acc, d.page_content.length ≤ size) →
    ∀ d ∈ docs.foldl (fun acc doc =>
      let doc := withSourceFile filename doc
      if doc.page_content.length > size then
        acc ++ (splitText size overlap doc.page_content).map
          (fun c => ⟨c, doc.metadata⟩)
      else acc ++ [doc]) acc,
    d.page_content.length ≤ size := by
  intro docs
  induction docs with
  | nil => intro acc hacc d hd; exact hacc d hd
  | cons doc rest ih =>
    intro acc hacc d hd
    rw [List.foldl_cons] at hd
    refine ih _ ?_ d hd
    intro x hx
    simp only at hx
    by_cases hgt : (withSourceFile filename doc).page_content.length > size
    · rw [if_pos hgt] at hx
      rcases List.mem_append.mp hx with hx | hx
      · exact hacc x hx
      · obtain ⟨c, hcmem, hceq⟩ := List.mem_map.mp hx
        subst hceq
        exact splitText_bound size overlap hz _ c hcmem
    · rw [if_neg hgt] at hx
      rcases List.mem_append.mp hx with hx | hx
      · exact hacc x hx
      · simp at hx
        subst hx
        omega

/-- Claim C1: for every markdown input and every configuration with
`chunk_overlap < max_chunk_size`, every chunk returned by
`split_single_document` has content length at most `max_chunk_size`.  (Proved
in the strong form, without needing the claim's atomic-unit exception: the
configured separator preference ends with the empty separator, which always
lets the secondary splitter enforce the bound.) -/
theorem claim_C1_chunk_size_bound (size overlap : Nat) (markdown_text : String)
    (filename : Option String) (h : overlap < size) :
    ∀ d ∈ split_single_document size overlap markdown_text filename,
    d.page_content.length ≤ size := by
  have hz : 1 ≤ size := by omega
  intro d hd
  rw [split_single_document] at hd
  by_cases hstrip : pyStrip markdown_text = ""
  · rw [if_pos hstrip] at hd; cases hd
  · rw [if_neg hstrip] at hd
    exact split_fold_bound size overlap filename hz (mdHeaderSplit markdown_text)
      [] (by simp) d hd

theorem claim_C1_chunk_size_bound_witness :
    4 < 10 ∧ ∀ d ∈ split_single_document 10 4 "aaaa bbbb cccc dddd" none,
      d.page_content.length ≤ 10 :=
  ⟨by decide, claim_C1_chunk_size_bound 10 4 "aaaa bbbb cccc dddd" none (by decide)⟩

/-! ## Overlap between adjacent sub-chunks -/

theorem filterNE_nil : filterNE [] = [] := rfl

theorem filterNE_cons (s : String) (l : List String) :
    filterNE (s :: l) = if s = "" then filterNE l else s :: filterNE l := by
  by_cases h : s = "" <;> simp [filterNE, h]

theorem mergeLoopW_head_prefix (z o : Nat) :
    ∀ (splits cur : List String) (total : Nat) (w : List String),
    (mergeLoopW z o splits cur total).head? = some w → ∃ post, cur ++ post = w := by
  intro splits
  induction splits with
  | nil =>
    intro cur total w hw
    simp [mergeLoopW] at hw
    exact ⟨[], by simp [hw]⟩
  | cons d rest ih =>
    intro cur total w hw
    rw [mergeLoopW] at hw
    by_cases hov : total + d.length > z
    · rw [if_pos hov] at hw
      by_cases hcur : cur = []
      · rw [if_pos hcur] at hw
        subst hcur
        exact ⟨w, by simp⟩
      · rw [if_neg hcur] at hw
        simp at hw
        exact ⟨[], by simp [hw]⟩
    · rw [if_neg hov] at hw
      obtain ⟨post, hpost⟩ := ih (cur ++ [d]) (total + d.length) w hw
      exact ⟨[d] ++ post, by simp [← hpost]⟩

theorem mergeLoopW_chain (z o : Nat) :
    ∀ (splits cur : List String) (total : Nat), total = sumLens cur →
    List.Chain' (boundedOverlapRel o) (mergeLoopW z o splits cur total) := by
  intro splits
  induction splits with
  | nil => intro cur total _; simp [mergeLoopW]
  | cons d rest ih =>
    intro cur total hsum
    rw [mergeLoopW]
    by_cases hov : total + d.length > z
    · rw [if_pos hov]
      by_cases hcur : cur = []
      · rw [if_pos hcur]
        subst hcur
        simp at hsum
        exact ih [d] (total + d.length) (by simp [hsum])
      · rw [if_neg hcur]
        obtain ⟨hps, hpo, _⟩ := popWhile_spec o z d.length cur total hsum
        rw [List.chain'_cons']
        constructor
        · intro w hw
          obtain ⟨post, hpost⟩ := mergeLoopW_head_prefix z o rest _ _ w hw
          obtain ⟨pre, hpre⟩ := popWhile_suffix o z d.length cur total
          refine ⟨(popWhile o z d.length cur total).1, ⟨pre, hpre⟩,
            ⟨[d] ++ post, by simp [← hpost]⟩, ?_⟩
          rw [← hps]
          exact hpo
        · refine ih _ _ ?_
          rw [sumLens_append, ← hps]
          simp
    · rw [if_neg hov]
      exact ih (cur ++ [d]) (total + d.length) (by rw [sumLens_append, hsum]; simp)

theorem mergeLoop_eq_windows (z o : Nat) :
    ∀ (splits cur : List String) (total : Nat),
    mergeLoop z o splits cur total =
      filterNE ((mergeLoopW z o splits cur total).map (fun w => pyStrip (pyJoin "" w))) := by
  intro splits
  induction splits with
  | nil =>
    intro cur total
    rw [mergeLoop, mergeLoopW]
    simp only [List.map_cons, List.map_nil, filterNE_cons, filterNE_nil]
  | cons d rest ih =>
    intro cur total
    rw [mergeLoop, mergeLoopW]
    by_cases hov : total + d.length > z
    · rw [if_pos hov, if_pos hov]
      by_cases hcur : cur = []
      · rw [if_pos hcur, if_pos hcur]
        exact ih [d] (total + d.length)
      · rw [if_neg hcur, if_neg hcur]
        simp only [List.map_cons, filterNE_cons]
        rw [ih]
        by_cases h : pyStrip (pyJoin "" cur) = "" <;> simp [h]
    · rw [if_neg hov, if_neg hov]
      exact ih (cur ++ [d]) (total + d.length)

/-- Claim C3 (amended): the sub-chunks of secondary splitting arise from a
sequence of merge windows (each sub-chunk is a window's pieces joined and
stripped, empty results dropped), and any two adjacent windows share a
carried-over overlap of whole separator-delimited pieces — a suffix of the
earlier window that is a prefix of the later one — whose total length is at
most `chunk_overlap` (possibly zero when no whole piece fits within
`chunk_overlap`); the overlap is not in general the last `chunk_overlap`
characters of the earlier sub-chunk. -/
theorem claim_C3_bounded_overlap (size overlap : Nat) (splits : List String) :
    mergeSplits size overlap splits =
      filterNE ((mergeWindows size overlap splits).map
        (fun w => pyStrip (pyJoin "" w))) ∧
    List.Chain' (boundedOverlapRel overlap) (mergeWindows size overlap splits) :=
  ⟨mergeLoop_eq_windows size overlap splits [] 0,
   mergeLoopW_chain size overlap splits [] 0 rfl⟩

/-- Claim C3 counterexample: with `max_chunk_size = 10` and
`chunk_overlap = 4`, the structural chunk `"aaaa bbbb cccc dddd"` (length 19)
is secondarily split into `"aaaa bbbb"` and `"cccc dddd"`, and the last 4
characters of the first sub-chunk (`"bbbb"`) are not a prefix of the second
sub-chunk. -/
theorem claim_C3_counterexample :
    (split_single_document 10 4 "aaaa bbbb cccc dddd" none).map
      (fun d => d.page_content) = ["aaaa bbbb", "cccc dddd"] ∧
    ("aaaa bbbb".data.drop ("aaaa bbbb".length - 4)).isPrefixOf
      "cccc dddd".data = false := by decide

/-! ## Association lists with `dict.update` semantics -/

theorem lookupKV_append {β : Type} (l₁ l₂ : List (String × β)) (k : String) :
    lookupKV (l₁ ++ l₂) k =
      match lookupKV l₁ k with
      | some v => some v
      | none => lookupKV l₂ k := by
  induction l₁ with
  | nil => simp [lookupKV]
  | cons p ps ih =>
    rw [List.cons_append, lookupKV, lookupKV]
    by_cases h : p.1 = k
    · simp [h]
    · simp only [if_neg h]
      exact ih

theorem lookupKV_mem {β : Type} (l : List (String × β)) (k : String) (v : β)
    (h : lookupKV l k = some v) : (k, v) ∈ l := by
  induction l with
  | nil => cases h
  | cons p ps ih =>
    rw [lookupKV] at h
    by_cases hk : p.1 = k
    · rw [if_pos hk] at h
      injection h with h
      have hp : (k, v) = p := by rw [← hk, ← h]
      rw [hp]
      exact List.mem_cons_self _ _
    · rw [if_neg hk] at h
      exact List.mem_cons_of_mem _ (ih h)

theorem lookupKV_of_mem_nodup {β : Type} (l : List (String × β))
    (hnd : (l.map Prod.fst).Nodup) (k : String) (v : β) (hm : (k, v) ∈ l) :
    lookupKV l k = some v := by
  induction l with
  | nil => cases hm
  | cons p ps ih =>
    rw [List.map_cons, List.nodup_cons] at hnd
    rw [lookupKV]
    rcases List.mem_cons.mp hm with hm | hm
    · rw [← hm]
      simp
    · have hk : p.1 ≠ k := by
        intro he
        exact hnd.1 (he ▸ (List.mem_map.mpr ⟨(k, v), hm, rfl⟩))
      rw [if_neg hk]
      exact ih hnd.2 hm

theorem lookupKV_filter_key {β : Type} (c : String → Bool) (l : List (String × β))
    (k : String) :
    lookupKV (l.filter (fun q => c q.1)) k =
      if c k = true then lookupKV l k else none := by
  induction l with
  | nil => simp [lookupKV]
  | cons p ps ih =>
    rw [List.filter_cons]
    by_cases hk : p.1 = k
    · by_cases hp : c p.1 = true
      · simp [hp, lookupKV, hk, hk ▸ hp]
      · have hck : ¬c k = true := by rw [← hk]; exact hp
        simp [hp, lookupKV, hk, hck, ih]
    · by_cases hp : c p.1 = true <;> simp [hp, lookupKV, hk, ih]

theorem lookupKV_dictUpdate (md kvs : List (String × String)) (k : String) :
    lookupKV (dictUpdate md kvs) k =
      match lookupKV kvs k with
      | some v => some v
      | none => lookupKV md k := by
  rw [dictUpdate, lookupKV_append]
  have hmap : lookupKV (md.map (fun p => match lookupKV kvs p.1 with
      | some v => (p.1, v)
      | none => p)) k =
      match lookupKV md k with
      | some w =>
        match lookupKV kvs k with
        | some v => some v
        | none => some w
      | none => none := by
    induction md with
    | nil => simp [lookupKV]
    | cons p ps ih =>
      rw [List.map_cons]
      by_cases hk : p.1 = k
      · rcases hkv : lookupKV kvs p.1 with _ | v <;>
          simp [lookupKV, hkv, hk, hk ▸ hkv]
      · rcases hkv : lookupKV kvs p.1 with _ | v <;>
          simp only [hkv, lookupKV, if_neg hk, ih]
  rw [hmap, lookupKV_filter_key (fun s => (lookupKV md s).isNone)]
  rcases hm : lookupKV md k with _ | w <;> rcases hkv : lookupKV kvs k with _ | v <;>
    simp [hm, hkv]

theorem dictUpdate_idem (md kvs : List (String × String))
    (hnd : (kvs.map Prod.fst).Nodup) :
    dictUpdate (dictUpdate md kvs) kvs = dictUpdate md kvs := by
  have hmem : ∀ q ∈ kvs, lookupKV kvs q.1 = some q.2 := fun q hq =>
    lookupKV_of_mem_nodup kvs hnd q.1 q.2 (by rw [Prod.mk.eta]; exact hq)
  have hfilter2 : kvs.filter
      (fun q => (lookupKV (dictUpdate md kvs) q.1).isNone) = [] := by
    rw [List.filter_eq_nil_iff]
    intro q hq
    rw [lookupKV_dictUpdate, hmem q hq]
    simp
  have hstep : dictUpdate (dictUpdate md kvs) kvs =
      (dictUpdate md kvs).map (fun p => match lookupKV kvs p.1 with
        | some v => (p.1, v)
        | none => p) := by
    rw [dictUpdate, hfilter2, List.append_nil]
  rw [hstep]
  conv_lhs => rw [dictUpdate]
  conv_rhs => rw [dictUpdate]
  rw [List.map_append, List.map_map]
  congr 1
  · refine List.map_congr_left (fun p _ => ?_)
    show (match lookupKV kvs (match lookupKV kvs p.1 with
        | some v => (p.1, v)
        | none => p).1 with
      | some v => ((match lookupKV kvs p.1 with
          | some v => (p.1, v)
          | none => p).1, v)
      | none => (match lookupKV kvs p.1 with
          | some v => (p.1, v)
          | none => p)) =
      match lookupKV kvs p.1 with
      | some v => (p.1, v)
      | none => p
    rcases h : lookupKV kvs p.1 with _ | v <;> simp [h]
  · refine (List.map_congr_left (fun q hq => ?_)).trans (List.map_id _)
    have hq' : q ∈ kvs := List.mem_of_mem_filter hq
    show (match lookupKV kvs q.1 with
      | some v => (q.1, v)
      | none => q) = q
    rw [hmem q hq']

/-! ## Metadata enricher -/

theorem lookupKV_naFields_source : lookupKV naFields "source_file" = none := rfl

theorem setNA_idem (d : Document) : setNA (setNA d) = setNA d := by
  simp only [setNA]
  exact congrArg (Document.mk d.page_content)
    (dictUpdate_idem d.metadata naFields (by decide))

theorem setNA_source_file (d : Document) :
    lookupKV (setNA d).metadata "source_file" = lookupKV d.metadata "source_file" := by
  rw [setNA, lookupKV_dictUpdate, lookupKV_naFields_source]

theorem enrichOne_eq_spec (cmap : List (String × List (String × String)))
    (d : Document) : enrichOne cmap d = enrichSpecOne cmap d := by
  unfold enrichOne enrichSpecOne
  rcases lookupKV d.metadata "source_file" with _ | fn
  · rfl
  · dsimp only
    by_cases hfn : fn = ""
    · rw [if_neg (by rw [hfn]; exact fun hc => hc rfl)]
      rcases lookupKV cmap fn with _ | entry
      · rfl
      · dsimp only
        rw [if_pos hfn]
    · rw [if_pos hfn]
      rcases lookupKV cmap fn with _ | entry
      · rfl
      · dsimp only
        rw [if_neg hfn]

theorem enrich_foldl_append (cmap : List (String × List (String × String)))
    (splits acc : List Document) :
    splits.foldl (fun acc d => acc ++ [enrichOne cmap d]) acc =
      acc ++ splits.map (enrichOne cmap) := by
  induction splits generalizing acc with
  | nil => simp
  | cons d rest ih => simp [ih]

theorem enrichDocuments_eq_map (splits : List Document)
    (cmap : List (String × List (String × String))) :
    enrichDocuments splits cmap = splits.map (enrichOne cmap) := by
  rw [enrichDocuments, enrich_foldl_append, List.nil_append]

/-- Claim C4 (amended): `enrich` never fails and returns the chunks in
exactly the input order, each transformed independently: a chunk whose
`source_file` is present, non-empty, and a key of the chapter map gets that
map entry's fields merged into its metadata (`dict.update` semantics), and
every other chunk — `source_file` missing, empty, or absent from the map —
gets both `chapter_number` and `chapter_title` set to the sentinel `"N/A"`. -/
theorem claim_C4_enrich_shape (splits : List Document)
    (cmap : List (String × List (String × String))) :
    enrichDocuments splits cmap = splits.map (enrichSpecOne cmap) ∧
    (enrichDocuments splits cmap).length = splits.length := by
  constructor
  · rw [enrichDocuments_eq_map]
    exact List.map_congr_left (fun d _ => enrichOne_eq_spec cmap d)
  · rw [enrichDocuments_eq_map, List.length_map]

/-- Claim C4 counterexample: a chunk whose `source_file` is the empty string
and a chapter map in which `""` is a key.  The claim says the map entry is
merged; the code's truthiness test sends the chunk to the `"N/A"` branch
instead. -/
theorem claim_C4_counterexample :
    enrichDocuments [⟨"body", [("source_file", "")]⟩]
        [("", [("chapter_title", "T"), ("chapter_number", "7")])] =
      [⟨"body", [("source_file", ""), ("chapter_number", "N/A"),
        ("chapter_title", "N/A")]⟩] ∧
    enrichDocuments [⟨"body", [("source_file", "")]⟩]
        [("", [("chapter_title", "T"), ("chapter_number", "7")])] ≠
      [⟨"body", dictUpdate [("source_file", "")]
        [("chapter_title", "T"), ("chapter_number", "7")]⟩] := by decide

theorem enrichOne_setNA (cmap : List (String × List (String × String)))
    (d : Document) (h : lookupKV (setNA d).metadata "source_file" =
      lookupKV d.metadata "source_file")
    (hbranch : ∀ fn, lookupKV d.metadata "source_file" = some fn →
      fn = "" ∨ lookupKV cmap fn = none) :
    enrichOne cmap (setNA d) = setNA (setNA d) := by
  unfold enrichOne
  rcases hsf : lookupKV d.metadata "source_file" with _ | fn
  · rw [h, hsf]
  · rw [h, hsf]
    dsimp only
    rcases hbranch fn hsf with hfn | hcm
    · rw [if_neg (by rw [hfn]; exact fun hc => hc rfl)]
    · by_cases hfn : fn = ""
      · rw [if_neg (by rw [hfn]; exact fun hc => hc rfl)]
      · rw [if_pos hfn, hcm]

theorem enrichOne_idem (cmap : List (String × List (String × String)))
    (hmap : ∀ p ∈ cmap, lookupKV p.2 "source_file" = none ∧
      (p.2.map Prod.fst).Nodup) (d : Document) :
    enrichOne cmap (enrichOne cmap d) = enrichOne cmap d := by
  rcases hsf : lookupKV d.metadata "source_file" with _ | fn
  · have h1 : enrichOne cmap d = setNA d := by
      unfold enrichOne; rw [hsf]
    rw [h1, enrichOne_setNA cmap d (setNA_source_file d)
      (fun fn hfn => by rw [hsf] at hfn; cases hfn)]
    exact setNA_idem d
  · by_cases hfn : fn = ""
    · have h1 : enrichOne cmap d = setNA d := by
        unfold enrichOne
        rw [hsf]
        dsimp only
        rw [if_neg (by rw [hfn]; exact fun hc => hc rfl)]
      rw [h1, enrichOne_setNA cmap d (setNA_source_file d)
        (fun fn' hfn' => by
          rw [hsf] at hfn'
          injection hfn' with hfn'
          exact Or.inl (hfn' ▸ hfn))]
      exact setNA_idem d
    · rcases hcm : lookupKV cmap fn with _ | entry
      · have h1 : enrichOne cmap d = setNA d := by
          unfold enrichOne
          rw [hsf]
          dsimp only
          rw [if_pos hfn, hcm]
        rw [h1, enrichOne_setNA cmap d (setNA_source_file d)
          (fun fn' hfn' => by
            rw [hsf] at hfn'
            injection hfn' with hfn'
            exact Or.inr (hfn' ▸ hcm))]
        exact setNA_idem d
      · obtain ⟨hes, hend⟩ := hmap (fn, entry) (lookupKV_mem cmap fn entry hcm)
        have h1 : enrichOne cmap d =
            { d with metadata := dictUpdate d.metadata entry } := by
          unfold enrichOne
          rw [hsf]
          dsimp only
          rw [if_pos hfn, hcm]
        rw [h1]
        unfold enrichOne
        have hsf' : lookupKV (dictUpdate d.metadata entry) "source_file" = some fn := by
          rw [lookupKV_dictUpdate, hes, hsf]
        rw [show ({ d with metadata := dictUpdate d.metadata entry } :
            Document).metadata = dictUpdate d.metadata entry from rfl, hsf']
        dsimp only
        rw [if_pos hfn, hcm]
        exact congrArg (Document.mk d.page_content)
          (dictUpdate_idem d.metadata entry hend)

/-- Claim C9 (amended): running `enrich` twice with the same chapter map
yields exactly the same chunks as running it once, provided no map entry
redefines the `source_file` key (and each entry has no duplicate keys, as a
Python dict cannot).  Without that proviso the claim fails, because a merged
entry can rewrite `source_file` and change the second run's lookup. -/
theorem claim_C9_enrich_idempotent (splits : List Document)
    (cmap : List (String × List (String × String)))
    (hmap : ∀ p ∈ cmap, lookupKV p.2 "source_file" = none ∧
      (p.2.map Prod.fst).Nodup) :
    enrichDocuments (enrichDocuments splits cmap) cmap =
      enrichDocuments splits cmap := by
  rw [enrichDocuments_eq_map, enrichDocuments_eq_map, List.map_map]
  exact List.map_congr_left (fun d _ => enrichOne_idem cmap hmap d)

theorem claim_C9_enrich_idempotent_witness :
    (∀ p ∈ chapterMetadataMap, lookupKV p.2 "source_file" = none ∧
      (p.2.map Prod.fst).Nodup) ∧
    enrichDocuments (enrichDocuments
        [⟨"x", [("source_file", "Introduction.md")]⟩, ⟨"y", []⟩]
        chapterMetadataMap) chapterMetadataMap =
      enrichDocuments [⟨"x", [("source_file", "Introduction.md")]⟩, ⟨"y", []⟩]
        chapterMetadataMap :=
  ⟨by decide,
   claim_C9_enrich_idempotent
     [⟨"x", [("source_file", "Introduction.md")]⟩, ⟨"y", []⟩]
     chapterMetadataMap (by decide)⟩

/-- Claim C9 counterexample: a chapter map entry that rewrites `source_file`
(`"a.md" ↦ {source_file: "b.md"}`) makes the second `enrich` run take a
different branch, so running twice is not the same as running once. -/
theorem claim_C9_counterexample :
    enrichDocuments (enrichDocuments [⟨"c", [("source_file", "a.md")]⟩]
        [("a.md", [("source_file", "b.md")])])
        [("a.md", [("source_file", "b.md")])] ≠
      enrichDocuments [⟨"c", [("source_file", "a.md")]⟩]
        [("a.md", [("source_file", "b.md")])] := by decide

/-! ## Query orchestrator error handling -/

/-- Claim C2: `query` never raises — it is a total function — and whenever
any step of the body (retriever construction, chain construction, retrieval,
prompt construction or generation) raises with message `e`, `query` returns a
result carrying the original question, the human-readable message
`"An error occurred: " ++ e`, and an empty source-document list. -/
theorem claim_C2_query_error_handling (question : String)
    (mkRetriever : Except String Retriever)
    (mkChain : Retriever → Except String RAGChain) (e : String)
    (h : queryPipelineSteps question mkRetriever mkChain = .error e) :
    pipeline_query question mkRetriever mkChain =
      ⟨question, "An error occurred: " ++ e, []⟩ := by
  rw [pipeline_query, h]

theorem claim_C2_query_error_handling_witness :
    queryPipelineSteps "What is ATP?" (Except.error "network down")
        (fun _ => Except.error "no chain") = Except.error "network down" ∧
    pipeline_query "What is ATP?" (Except.error "network down")
        (fun _ => Except.error "no chain") =
      ⟨"What is ATP?", "An error occurred: network down", []⟩ :=
  ⟨rfl, claim_C2_query_error_handling "What is ATP?" (Except.error "network down")
    (fun _ => Except.error "no chain") "network down" rfl⟩

/-! ## Response-cleanup scenario -/

set_option maxRecDepth 100000 in
/-- Claim C6: applying the fixed, ordered cleanup patterns to the raw model
output `"Answer: Answer: Glycolysis occurs in the cytoplasm.\n\nRelated
Questions:\n1. ..."` yields exactly `"Glycolysis occurs in the cytoplasm."`. -/
theorem claim_C6_cleanup_scenario :
    apply_cleaning_patterns
        "Answer: Answer: Glycolysis occurs in the cytoplasm.\n\nRelated Questions:\n1. ..." =
      "Glycolysis occurs in the cytoplasm." := by decide

/-! ## Empty-input laws -/

/-- Claim C8: `split_single_document` on empty or whitespace-only input
returns the empty sequence (not an error), and `get_chunks_summary` on the
empty chunk list returns the zeroed summary (no chunks, empty per-file and
per-section counts, all size statistics zero) without raising. -/
theorem claim_C8_empty_inputs :
    (∀ (size overlap : Nat) (filename : Option String) (s : String),
      pyStrip s = "" → split_single_document size overlap s filename = []) ∧
    get_chunks_summary [] = ⟨0, [], [], ⟨0, 0, 0, 0⟩⟩ := by
  constructor
  · intro size overlap filename s hs
    rw [split_single_document, if_pos hs]
  · rfl

theorem claim_C8_empty_inputs_witness :
    pyStrip "" = "" ∧ pyStrip " \n\t " = "" ∧
    split_single_document 1000 100 "" none = [] ∧
    split_single_document 1000 100 " \n\t " none = [] :=
  ⟨by decide, by decide,
   claim_C8_empty_inputs.1 1000 100 none "" (by decide),
   claim_C8_empty_inputs.1 1000 100 none " \n\t " (by decide)⟩

/-! ## Prompt assembly -/

theorem append_ne_empty_left (s t : String) (h : s ≠ "") : s ++ t ≠ "" := by
  intro hc
  have h0 : (s ++ t).length = 0 := by rw [hc]; rfl
  rw [String.length_append] at h0
  have := length_pos_of_ne_empty s h
  omega

theorem filterNE_mem_ne (l : List String) : ∀ s ∈ filterNE l, s ≠ "" := by
  intro s hs
  rw [filterNE] at hs
  simpa using (List.mem_filter.mp hs).2

theorem filterNE_of_ne (l : List String) (h : ∀ s ∈ l, s ≠ "") :
    filterNE l = l := by
  rw [filterNE, List.filter_eq_self]
  intro a ha
  simpa using h a ha

theorem filterNE_append (l₁ l₂ : List String) :
    filterNE (l₁ ++ l₂) = filterNE l₁ ++ filterNE l₂ := by
  rw [filterNE, filterNE, filterNE, List.filter_append]

theorem pyJoin_filterNE_eq_empty_iff (sep : String) (g : List String) :
    pyJoin sep (filterNE g) = "" ↔ filterNE g = [] := by
  constructor
  · intro h
    rcases hg : filterNE g with _ | ⟨x, xs⟩
    · rfl
    · exfalso
      refine pyJoin_ne_empty sep x xs ?_ (by rw [← hg]; exact h)
      exact filterNE_mem_ne g x (by rw [hg]; exact List.mem_cons_self _ _)
  · intro h
    rw [h]
    rfl

theorem catLists_filterNE_nil_iff (gs : List (List String)) :
    filterNE (catLists gs) = [] ↔ ∀ g ∈ gs, filterNE g = [] := by
  induction gs with
  | nil => simp [catLists, filterNE]
  | cons g gs ih =>
    rw [show catLists (g :: gs) = g ++ catLists gs from rfl, filterNE_append]
    simp only [List.append_eq_nil, List.mem_cons]
    constructor
    · rintro ⟨h1, h2⟩ x (hx | hx)
      · rw [hx]; exact h1
      · exact ih.mp h2 x hx
    · intro h
      exact ⟨h g (Or.inl rfl), ih.mpr (fun x hx => h x (Or.inr hx))⟩

theorem mapJoin_filterNE_nil_iff (sep : String) (gs : List (List String)) :
    filterNE (gs.map (fun g => pyJoin sep (filterNE g))) = [] ↔
    filterNE (catLists gs) = [] := by
  rw [catLists_filterNE_nil_iff, filterNE, List.filter_eq_nil_iff]
  constructor
  · intro h g hg
    have := h (pyJoin sep (filterNE g)) (List.mem_map.mpr ⟨g, hg, rfl⟩)
    simp at this
    exact (pyJoin_filterNE_eq_empty_iff sep g).mp this
  · intro h x hx
    obtain ⟨g, hg, hgx⟩ := List.mem_map.mp hx
    subst hgx
    simp
    exact (pyJoin_filterNE_eq_empty_iff sep g).mpr (h g hg)

theorem pyJoin_filterNE_groups (sep : String) (gs : List (List String)) :
    pyJoin sep (filterNE (catLists gs)) =
      pyJoin sep (filterNE (gs.map (fun g => pyJoin sep (filterNE g)))) := by
  induction gs with
  | nil => rfl
  | cons g gs ih =>
    rw [show catLists (g :: gs) = g ++ catLists gs from rfl, filterNE_append,
      List.map_cons, filterNE_cons]
    by_cases hg : filterNE g = []
    · rw [hg, List.nil_append,
        if_pos (show pyJoin sep ([] : List String) = "" from rfl)]
      exact ih
    · rw [if_neg (fun hc => hg ((pyJoin_filterNE_eq_empty_iff sep g).mp hc))]
      by_cases hrest : filterNE (catLists gs) = []
      · rw [hrest, List.append_nil,
          (mapJoin_filterNE_nil_iff sep gs).mpr hrest, pyJoin_single]
      · have hmapne : filterNE (gs.map (fun g => pyJoin sep (filterNE g))) ≠ [] :=
          fun hc => hrest ((mapJoin_filterNE_nil_iff sep gs).mp hc)
        rw [pyJoin_append sep _ _ hg hrest, ih, pyJoin_cons_ne sep _ _ hmapne]

theorem blockPlain_join (v : Option String) :
    pyJoin "\n\n" (filterNE (partsPlain v)) = blockPlain v := by
  rcases v with _ | r
  · rfl
  · rw [partsPlain, blockPlain]
    by_cases hr : r = ""
    · rw [if_pos hr, hr]
      rfl
    · rw [if_neg hr, filterNE_cons]
      by_cases hs : pyStrip r = ""
      · rw [if_pos hs, hs]
        rfl
      · rw [if_neg hs]
        rfl

theorem blockGoal_join (v : Option String) :
    pyJoin "\n\n" (filterNE (partsGoal v)) = blockGoal v := by
  rcases v with _ | g
  · rfl
  · rw [partsGoal, blockGoal]
    by_cases hg : g = ""
    · rw [if_pos hg, if_pos hg]
      rfl
    · rw [if_neg hg, if_neg hg, filterNE_cons,
        if_neg (append_ne_empty_left "\nGoal: " (pyStrip g) (by decide))]
      rfl

theorem blockListSection_join (header : String) (hne : header ≠ "")
    (v : Option (List String)) :
    pyJoin "\n\n" (filterNE (partsListSection header v)) =
      blockListSection header v := by
  rcases v with _ | l
  · rfl
  · rw [partsListSection, blockListSection]
    by_cases hl : l = []
    · rw [if_pos hl, if_pos hl]
      rfl
    · rw [if_neg hl, if_neg hl,
        filterNE_of_ne _ (fun s hs => ?_)]
      rcases List.mem_cons.mp hs with hs | hs
      · rw [hs]; exact hne
      · obtain ⟨c, _, hc⟩ := List.mem_map.mp hs
        rw [← hc]
        exact append_ne_empty_left "  - " (pyStrip c) (by decide)

theorem blockCot_join (v : Option String) :
    pyJoin "\n\n" (filterNE (partsCot v)) = blockCot v := by
  rcases v with _ | t
  · rfl
  · rw [partsCot, blockCot]
    by_cases ht : t = ""
    · rw [if_pos ht, if_pos ht]
      rfl
    · rw [if_neg ht, if_neg ht, filterNE_cons,
        if_neg (append_ne_empty_left "\nReasoning Strategy:\n" (pyStrip t) (by decide))]
      rfl

theorem systemMessage_eq_spec (cfg : PromptConfig) (cot : Option String) :
    build_system_message cfg cot = specSystemSection cfg cot := by
  rw [build_system_message,
    show partsPlain cfg.role ++ partsPlain cfg.instruction ++ partsGoal cfg.goal ++
        partsListSection "\nOutput Constraints:" cfg.output_constraints ++
        partsListSection "\nStyle/Tone:" cfg.style_or_tone ++ partsCot cot =
      catLists [partsPlain cfg.role, partsPlain cfg.instruction, partsGoal cfg.goal,
        partsListSection "\nOutput Constraints:" cfg.output_constraints,
        partsListSection "\nStyle/Tone:" cfg.style_or_tone, partsCot cot] by
      simp [catLists, List.append_assoc],
    pyJoin_filterNE_groups, specSystemSection]
  congr 1
  simp only [List.map_cons, List.map_nil]
  rw [blockPlain_join, blockPlain_join, blockGoal_join,
    blockListSection_join _ (by decide), blockListSection_join _ (by decide),
    blockCot_join]

/-- Claim C5: for every template configuration, the assembled prompt template
equals the specification's description — the optional fields rendered in the
fixed order `role`, `instruction`, `goal` (prefixed `"Goal: "`),
`output_constraints` (bulleted list under a header), `style_or_tone`
(bulleted list under a header), resolved reasoning strategy (under a
`"Reasoning Strategy:"` header), the non-empty parts joined by blank-line
separation with empty or absent parts contributing nothing, followed by
`"\n\nContext:\n{context}\n\nQuestion: {question}"`. -/
theorem claim_C5_prompt_template (cfg : PromptConfig) (cot : Option String) :
    combined_template cfg cot = specPromptTemplate cfg cot := by
  rw [combined_template, specPromptTemplate, systemMessage_eq_spec]

/-! ## Splitter error handling -/

/-- Claim C10: `split_single_document` never raises — if the underlying
header splitting or recursive character splitting raises, the exception is
caught and the empty sequence is returned — and a file whose split fails
contributes zero chunks to directory processing, which continues with the
remaining files unchanged. -/
theorem claim_C10_split_error_handling (size : Nat)
    (headerSplit : String → Except String (List Document))
    (textSplit : Document → Except String (List Document))
    (markdown_text : String) (filename : Option String) (e : String)
    (h : splitBodyF size headerSplit textSplit markdown_text filename =
      .error e) :
    splitSingleDocumentF size headerSplit textSplit markdown_text filename = [] ∧
    (∀ (pre post : List (String × Except String String)) (n e' : String),
      splitBodyF size headerSplit textSplit markdown_text (some n) = .error e' →
      process_directory_files (splitSingleDocumentF size headerSplit textSplit)
          (pre ++ (n, Except.ok markdown_text) :: post) =
        process_directory_files (splitSingleDocumentF size headerSplit textSplit)
          (pre ++ post)) := by
  have hnil : ∀ (fname : Option String) (e'' : String),
      splitBodyF size headerSplit textSplit markdown_text fname = .error e'' →
      splitSingleDocumentF size headerSplit textSplit markdown_text fname = [] := by
    intro fname e'' h''
    rw [splitSingleDocumentF]
    by_cases hs : pyStrip markdown_text = ""
    · rw [if_pos hs]
    · rw [if_neg hs, h'']
  refine ⟨hnil filename e h, ?_⟩
  intro pre post n e' h'
  rw [process_directory_files, process_directory_files, List.foldl_append,
    List.foldl_append, List.foldl_cons]
  congr 1
  dsimp only
  by_cases hs : pyStrip markdown_text = ""
  · rw [if_pos hs]
  · rw [if_neg hs, hnil (some n) e' h', List.append_nil]

/-! ## Ingestion abort semantics -/

/-- Claim C7 (amended): ingestion returns a success summary exactly when the
data directory exists, documents were processed, the embedding model loads,
the vector store and the insertion succeed, and the clearing step goes
through — which happens when `clear_existing` is set, or when the persisted
vector-store location does not exist, or when it exists, contains data, and
the user confirms the destructive clear.  In every other case — including
when the persisted location exists but is empty, where no confirmation is
requested and the run nevertheless aborts — `ingest` returns null. -/
theorem claim_C7_ingest_success_iff (cfg : IngestConfig) (env : IngestEnv)
    (clear_existing : Bool) :
    (∃ s, ingest_data_into_vectordb cfg env clear_existing = some s) ↔
    (env.dataDirExists = true ∧ env.processedChunks ≠ [] ∧
     (∃ d, env.embeddingResult = .ok d) ∧
     (clear_existing = true ∨ env.persistDirExists = false ∨
      (env.persistDirNonempty = true ∧ userConfirmsClear env = true)) ∧
     (∃ u, env.vectorStoreResult = .ok u) ∧
     (∃ n, env.addDocumentsResult = .ok n)) := by
  rw [ingest_data_into_vectordb]
  cases hdd : env.dataDirExists
  · simp [hdd]
  · by_cases hpc : env.processedChunks = []
    · simp [hdd, hpc]
    · rcases hemb : env.embeddingResult with e | ⟨dim, dev⟩
      · simp [hdd, hpc, hemb]
      · cases hce : clear_existing
        · by_cases hpe : env.persistDirExists = true
          · cases hpn : env.persistDirNonempty
            · simp [hdd, hpc, hemb, hpe, hpn,
                prompt_user_for_clear_confirmation]
            · cases huc : userConfirmsClear env
              · simp [hdd, hpc, hemb, hpe, hpn, huc,
                  prompt_user_for_clear_confirmation]
              · rcases hvs : env.vectorStoreResult with ev | u
                · simp [hdd, hpc, hemb, hpe, hpn, huc, hvs,
                    prompt_user_for_clear_confirmation]
                · rcases had : env.addDocumentsResult with ea | n
                  · simp [hdd, hpc, hemb, hpe, hpn, huc, hvs, had,
                      prompt_user_for_clear_confirmation]
                  · simp [hdd, hpc, hemb, hpe, hpn, huc, hvs, had,
                      prompt_user_for_clear_confirmation]
          · have hpe' : env.persistDirExists = false := by
              cases h : env.persistDirExists
              · rfl
              · exact absurd h hpe
            rcases hvs : env.vectorStoreResult with ev | u
            · simp [hdd, hpc, hemb, hpe', hvs,
                prompt_user_for_clear_confirmation]
            · rcases had : env.addDocumentsResult with ea | n
              · simp [hdd, hpc, hemb, hpe', hvs, had,
                  prompt_user_for_clear_confirmation]
              · simp [hdd, hpc, hemb, hpe', hvs, had,
                  prompt_user_for_clear_confirmation]
        · rcases hvs : env.vectorStoreResult with ev | u
          · simp [hdd, hpc, hemb, hvs]
          · rcases had : env.addDocumentsResult with ea | n
            · simp [hdd, hpc, hemb, hvs, had]
            · simp [hdd, hpc, hemb, hvs, had]

/-- Claim C7 counterexample: with `clear_existing = false`, a healthy
environment (data directory present, one processed chunk, embedding, vector
store and insertion all succeeding) and a persisted vector-store location
that exists but is empty, the claim says ingestion proceeds to the success
summary; the code aborts and returns null without asking for confirmation. -/
theorem claim_C7_counterexample :
    ingest_data_into_vectordb
      ⟨800, 50, "data/book1", "./biochem_chroma_db", "lehninger_biochem",
        "all-MiniLM-L6-v2"⟩
      ⟨true, [⟨"x", [("source_file", "Introduction.md")]⟩],
        Except.ok (384, "cpu"), true, false, some "y", Except.ok (),
        Except.ok 1⟩
      false = none := by decide

theorem claim_C10_split_error_handling_witness :
    splitBodyF 1000 (fun _ => Except.error "boom") (fun _ => Except.ok [])
        "x" none = Except.error "boom" ∧
    splitSingleDocumentF 1000 (fun _ => Except.error "boom")
        (fun _ => Except.ok []) "x" none = [] ∧
    process_directory_files (splitSingleDocumentF 1000
        (fun _ => Except.error "boom") (fun _ => Except.ok []))
        ([("a.md", Except.ok "alpha")] ++ ("bad.md", Except.ok "x") ::
          [("b.md", Except.ok "beta")]) =
      process_directory_files (splitSingleDocumentF 1000
        (fun _ => Except.error "boom") (fun _ => Except.ok []))
        ([("a.md", Except.ok "alpha")] ++ [("b.md", Except.ok "beta")]) :=
  ⟨rfl,
   (claim_C10_split_error_handling 1000 (fun _ => Except.error "boom")
     (fun _ => Except.ok []) "x" none "boom" rfl).1,
   (claim_C10_split_error_handling 1000 (fun _ => Except.error "boom")
     (fun _ => Except.ok []) "x" none "boom" rfl).2
     [("a.md", Except.ok "alpha")] [("b.md", Except.ok "beta")]
     "bad.md" "boom" rfl⟩
